import Mathlib

/-!
Shallow embedding of the lanthanum schema-field engine
(src/lanthanum/schema_fields.py) and proofs about it.

JSON-compatible values are modelled by the inductive type JsonValue;
Python dictionaries are ordered association lists (insertion order is
observable, as in Python 3); field declarations are modelled by the
inductive type FieldSpec, one constructor per Field subclass, carrying
the attributes stored by the corresponding constructor.  Operations that
can raise a Python exception return an Option, with none standing for
the exception.
-/

/-- JSON-compatible values: null, booleans, numbers, strings, arrays and
string-keyed objects, mirroring what load_data accepts. -/
inductive JsonValue where
  | null
  | bool (b : Bool)
  | num (n : Int)
  | str (s : String)
  | arr (items : List JsonValue)
  | obj (entries : List (String × JsonValue))

/-- Python truthiness of a JSON-compatible value: None, False, 0, the
empty string and empty collections are falsy, everything else truthy. -/
def truthy : JsonValue → Bool
  | .null => false
  | .bool b => b
  | .num n => n ≠ 0
  | .str s => s ≠ ""
  | .arr items => !items.isEmpty
  | .obj entries => !entries.isEmpty

/-- Python `a or b`: a when a is truthy, otherwise b. -/
def pyOr (a b : JsonValue) : JsonValue :=
  if truthy a then a else b

/-- Lookup in an ordered association list (Python dict access without a
default): the value at the first matching key. -/
def dictLookup : List (String × JsonValue) → String → Option JsonValue
  | [], _ => none
  | (k, v) :: rest, key => if k = key then some v else dictLookup rest key

/-- Python dict.get(key): null when the key is absent. -/
def objGet (kvs : List (String × JsonValue)) (key : String) : JsonValue :=
  (dictLookup kvs key).getD .null

/-- Membership of a key in a Python dict. -/
def hasKey (kvs : List (String × JsonValue)) (key : String) : Bool :=
  (dictLookup kvs key).isSome

/-- Python dict assignment d[key] = v: overwrite the first occurrence in
place (keeping its position), or append at the end if the key is new. -/
def dictSet : List (String × JsonValue) → String → JsonValue →
    List (String × JsonValue)
  | [], key, v => [(key, v)]
  | (k, w) :: rest, key, v =>
    if k = key then (key, v) :: rest else (k, w) :: dictSet rest key v

/-- Dict access on a JsonValue: .get on an object, null otherwise (the
Python code only ever reaches this on objects). -/
def jget (v : JsonValue) (key : String) : JsonValue :=
  match v with
  | .obj kvs => objGet kvs key
  | _ => .null

/-- Core of Python str.title for ASCII strings: a letter is uppercased
when the previous character is not a letter, lowercased otherwise. -/
def pyTitleAux : List Char → Bool → List Char
  | [], _ => []
  | c :: cs, prevCased =>
    (if c.isAlpha then (if prevCased then c.toLower else c.toUpper) else c)
      :: pyTitleAux cs c.isAlpha

/-- Python str.title() for ASCII strings. -/
def pyTitle (s : String) : String :=
  ⟨pyTitleAux s.data false⟩

/-- Python name.title().replace("_", " "), the label derived from an
attribute name in ObjectField.schema and TypedField.__init__. -/
def titleize (s : String) : String :=
  ⟨(pyTitle s).data.map (fun c => if c = '_' then ' ' else c)⟩

/-- Field declarations, one constructor per Field subclass in
schema_fields.py.  Each constructor stores the attributes the Python
constructor stores: the (post-`or`-normalisation) label and default,
the required flag, and per-class extras.  ObjectField carries its
declared sub-fields as an ordered name-to-declaration list, mirroring
the class-dict scan in ObjectField.__init__. -/
inductive FieldSpec where
  | char (label default : JsonValue) (required : Bool)
      (choices : Option (List (JsonValue × JsonValue)))
      (minLen maxLen : Option Int)
  | text (label default : JsonValue) (required : Bool)
  | boolean (label default : JsonValue) (required : Bool)
  | integer (label default : JsonValue) (required : Bool)
  | decimal (label default : JsonValue) (required : Bool)
  | filePath (label default : JsonValue) (required : Bool)
      (mediaType : Option String)
  | object (label default : JsonValue) (required : Bool)
      (subFields : List (String × FieldSpec))

/-- Stored _label of a field instance. -/
def FieldSpec.label : FieldSpec → JsonValue
  | .char l _ _ _ _ _ => l
  | .text l _ _ => l
  | .boolean l _ _ => l
  | .integer l _ _ => l
  | .decimal l _ _ => l
  | .filePath l _ _ _ => l
  | .object l _ _ _ => l

/-- Stored _required flag of a field instance. -/
def FieldSpec.required : FieldSpec → Bool
  | .char _ _ r _ _ _ => r
  | .text _ _ r => r
  | .boolean _ _ r => r
  | .integer _ _ r => r
  | .decimal _ _ r => r
  | .filePath _ _ r _ => r
  | .object _ _ r _ => r

/-- Assignment to the _label attribute of a field instance (performed by
ObjectField.schema and TypedField.__init__). -/
def FieldSpec.setLabel : FieldSpec → JsonValue → FieldSpec
  | .char _ d r c mn mx, l => .char l d r c mn mx
  | .text _ d r, l => .text l d r
  | .boolean _ d r, l => .boolean l d r
  | .integer _ d r, l => .integer l d r
  | .decimal _ d r, l => .decimal l d r
  | .filePath _ d r m, l => .filePath l d r m
  | .object _ d r subs, l => .object l d r subs

/-- Field.__init__: label and default are normalised with Python `or`
(a falsy keyword argument collapses to None, i.e. null, since no Meta
class in the source declares a label or default); required defaults to
False at the call sites that omit it. -/
def mkChar (labelKw defaultKw : JsonValue) (required : Bool)
    (choices : Option (List (JsonValue × JsonValue)))
    (minLen maxLen : Option Int) : FieldSpec :=
  .char (pyOr labelKw .null) (pyOr defaultKw .null) required choices minLen maxLen

/-- TextField construction (Field.__init__ with the textarea Meta). -/
def mkText (labelKw defaultKw : JsonValue) (required : Bool) : FieldSpec :=
  .text (pyOr labelKw .null) (pyOr defaultKw .null) required

/-- BooleanField construction. -/
def mkBoolean (labelKw defaultKw : JsonValue) (required : Bool) : FieldSpec :=
  .boolean (pyOr labelKw .null) (pyOr defaultKw .null) required

/-- IntegerField construction. -/
def mkInteger (labelKw defaultKw : JsonValue) (required : Bool) : FieldSpec :=
  .integer (pyOr labelKw .null) (pyOr defaultKw .null) required

/-- DecimalField construction. -/
def mkDecimal (labelKw defaultKw : JsonValue) (required : Bool) : FieldSpec :=
  .decimal (pyOr labelKw .null) (pyOr defaultKw .null) required

/-- FilePathField construction. -/
def mkFilePath (labelKw defaultKw : JsonValue) (required : Bool)
    (mediaType : Option String) : FieldSpec :=
  .filePath (pyOr labelKw .null) (pyOr defaultKw .null) required mediaType

/-- ObjectField construction from its declared sub-fields. -/
def mkObject (labelKw defaultKw : JsonValue) (required : Bool)
    (subFields : List (String × FieldSpec)) : FieldSpec :=
  .object (pyOr labelKw .null) (pyOr defaultKw .null) required subFields

/-- Distinctness of declared attribute names; guaranteed in Python
because sub-fields are keys of a class dict. -/
def namesNodup : List String → Bool
  | [] => true
  | n :: rest => (!rest.any (fun m => m = n)) && namesNodup rest

mutual

/-- Well-formedness of a declaration: every ObjectField level has
pairwise-distinct sub-field names (automatic for Python class dicts). -/
def wfS : FieldSpec → Bool
  | .object _ _ _ subs => namesNodup (subs.map Prod.fst) && wfSubs subs
  | _ => true

/-- Well-formedness of every declaration in a sub-field list. -/
def wfSubs : List (String × FieldSpec) → Bool
  | [] => true
  | (_, f) :: rest => wfS f && wfSubs rest

end

/-- BooleanField.load_data coercion: the strings "true"/"True" become
True, "false"/"False" become False, everything else is unchanged
(Python == between a non-string and a string is always False). -/
def boolCoerce : JsonValue → JsonValue
  | .str s =>
    if s = "true" ∨ s = "True" then .bool true
    else if s = "false" ∨ s = "False" then .bool false
    else .str s
  | v => v

mutual

/-- load_data of each Field subclass, as the value stored into
self.data.  CharField/TextField/FilePathField store `data or ""`;
BooleanField applies the string coercion; IntegerField, DecimalField
(and the Field base) store the input verbatim; ObjectField stores null
for null, a non-dict verbatim (after a logged warning), and otherwise
rebuilds a dict of every sub-field's loaded data, passing each sub-field
data.get(name). -/
def loadData : FieldSpec → JsonValue → JsonValue
  | .char _ _ _ _ _ _, d => pyOr d (.str "")
  | .text _ _ _, d => pyOr d (.str "")
  | .filePath _ _ _ _, d => pyOr d (.str "")
  | .boolean _ _ _, d => boolCoerce d
  | .integer _ _ _, d => d
  | .decimal _ _ _, d => d
  | .object _ _ _ subs, d =>
    match d with
    | .null => .null
    | .obj kvs => .obj (loadSubs subs kvs)
    | v => v

/-- ObjectField.load_data loop: for each declared sub-field name, load
data.get(name) into it and record the resulting sub-field data. -/
def loadSubs : List (String × FieldSpec) → List (String × JsonValue) →
    List (String × JsonValue)
  | [], _ => []
  | (n, f) :: rest, kvs => (n, loadData f (objGet kvs n)) :: loadSubs rest kvs

end

/-- Conditional dict assignment for an optional string (the Meta
data_type / data_format entries of Field.schema). -/
def addIfStr (s : List (String × JsonValue)) (key : String)
    (v : Option String) : List (String × JsonValue) :=
  match v with
  | none => s
  | some t => dictSet s key (.str t)

/-- Conditional dict assignment guarded by `is not None`. -/
def addIfNotNull (s : List (String × JsonValue)) (key : String)
    (v : JsonValue) : List (String × JsonValue) :=
  match v with
  | .null => s
  | v => dictSet s key v

/-- Field.schema: type, format, title and default, each only when
defined. -/
def baseSchema (dataType dataFormat : Option String)
    (label default : JsonValue) : List (String × JsonValue) :=
  addIfNotNull
    (addIfNotNull (addIfStr (addIfStr [] "type" dataType) "format" dataFormat)
      "title" label)
    "default" default

/-- Modelled from the spec: the process-wide media base URL
(settings.MEDIA_URL) used only by FilePathField.schema; the Django
settings module is outside the repository. -/
def MEDIA_URL : String := "/media/"

/-- CharField enumSource schema entry built from the configured
choices. -/
def enumSourceVal (cs : List (JsonValue × JsonValue)) : JsonValue :=
  .arr [.obj
    [("source", .arr (cs.map (fun p => .obj [("value", p.1), ("title", p.2)]))),
     ("title", .str "\x7b\x7bitem.title\x7d\x7d"),
     ("value", .str "\x7b\x7bitem.value\x7d\x7d")]]

/-- ObjectField._get_required: the declared sub-field names whose
required flag is set, in declaration order. -/
def getRequired (subs : List (String × FieldSpec)) : List JsonValue :=
  subs.filterMap (fun p => if p.2.required then some (.str p.1) else none)

mutual

/-- The schema property of each Field subclass, as an ordered dict,
computed with an explicit current _label (the label component of the
declaration is ignored in favour of lbl, so that the label assignment
performed by ObjectField.schema on its sub-fields is expressible
structurally). -/
def fieldSchemaWith : FieldSpec → JsonValue → List (String × JsonValue)
  | .char _ dflt req choices minL maxL, lbl =>
    let s := baseSchema (some "string") (some "text") lbl dflt
    let s :=
      match choices with
      | some cs =>
        if !cs.isEmpty then
          dictSet (dictSet s "enumSource" (enumSourceVal cs)) "enum"
            (.arr (cs.map Prod.fst))
        else s
      | none => s
    let s := if req && minL.isNone then dictSet s "minLength" (.num 1) else s
    let s :=
      match minL with
      | some m => if m ≠ 0 then dictSet s "minLength" (.num m) else s
      | none => s
    match maxL with
    | some m => if m ≠ 0 then dictSet s "maxLength" (.num m) else s
    | none => s
  | .text _ dflt req, lbl =>
    let s := baseSchema (some "string") (some "textarea") lbl dflt
    if req then dictSet s "minLength" (.num 1) else s
  | .boolean _ dflt _, lbl => baseSchema (some "boolean") (some "checkbox") lbl dflt
  | .integer _ dflt _, lbl => baseSchema (some "integer") (some "number") lbl dflt
  | .decimal _ dflt _, lbl => baseSchema (some "number") (some "number") lbl dflt
  | .filePath _ dflt req mediaType, lbl =>
    let s := baseSchema (some "string") (some "text") lbl dflt
    let s := if req then dictSet s "minLength" (.num 1) else s
    let mediaLink :=
      match mediaType with
      | some mt =>
        [("href", JsonValue.str (MEDIA_URL ++ "\x7b\x7bself\x7d\x7d")),
         ("mediaType", JsonValue.str mt)]
      | none => [("href", JsonValue.str (MEDIA_URL ++ "\x7b\x7bself\x7d\x7d"))]
    dictSet s "links" (.arr [.obj mediaLink])
  | .object _ dflt _ subs, lbl =>
    let s := baseSchema (some "object") none lbl dflt
    let s := dictSet s "properties" (.obj (objPropsGo subs []))
    dictSet s "required" (.arr (getRequired subs))

/-- ObjectField.schema loop: assign each sub-field a title-case label
derived from its name, then record its schema under its name. -/
def objPropsGo : List (String × FieldSpec) → List (String × JsonValue) →
    List (String × JsonValue)
  | [], acc => acc
  | (n, f) :: rest, acc =>
    objPropsGo rest
      (dictSet acc n (.obj (fieldSchemaWith f (.str (titleize n)))))

end

/-- The schema property read off a field instance: its schema computed
with its stored label. -/
def fieldSchema (f : FieldSpec) : List (String × JsonValue) :=
  fieldSchemaWith f f.label

/-- TypedField: a wrapped field instance plus an immutable schema_type
tag. -/
structure TypedFieldSpec where
  field : FieldSpec
  schemaType : String

/-- TypedField.__init__: deep-copy the wrapped field and, when it has no
label, default its label to the title-cased tag. -/
def mkTypedField (field : FieldSpec) (schemaTy : String) : TypedFieldSpec :=
  { field :=
      match field.label with
      | .null => field.setLabel (.str (titleize schemaTy))
      | _ => field
    schemaType := schemaTy }

/-- TypedField.schema: an object schema exposing the constant schemaType
property and the wrapped field's schema under "data". -/
def typedSchema (t : TypedFieldSpec) : List (String × JsonValue) :=
  [("type", .str "object"),
   ("title", t.field.label),
   ("properties", .obj
     [("schemaType", .obj
       [("title", .str "Schema Type"),
        ("const", .str t.schemaType),
        ("type", .str "string"),
        ("default", .str t.schemaType),
        ("template", .str t.schemaType)]),
      ("data", .obj (fieldSchema t.field))]),
   ("defaultProperties", .arr [.str "data", .str "schemaType"]),
   ("required", .arr [.str "data", .str "schemaType"])]

/-- State of a TypedField after load_data: its own data dict and the
wrapped field's loaded data. -/
structure TypedState where
  data : List (String × JsonValue)
  fieldData : JsonValue

/-- TypedField.load_data on a dict: store the dict, force
data["schemaType"] to the tag, then load data.get("data") into the
wrapped field. -/
def typedLoad (t : TypedFieldSpec) (kvs : List (String × JsonValue)) :
    TypedState :=
  let d := dictSet kvs "schemaType" (.str t.schemaType)
  { data := d, fieldData := loadData t.field (objGet d "data") }

/-- TypedField.load_data on an arbitrary value: item assignment on a
non-dict raises (modelled as none). -/
def typedLoadRaw (t : TypedFieldSpec) : JsonValue → Option TypedState
  | .obj kvs => some (typedLoad t kvs)
  | _ => none

/-- Hashability of a JSON value as a Python dict key: lists and dicts
are unhashable, so dict.get raises on them. -/
def hashable : JsonValue → Bool
  | .arr _ => false
  | .obj _ => false
  | _ => true

/-- OneOfArrayField.__init__: wrap every declared variant field in a
TypedField tagged with its attribute name. -/
def allowedFields (variants : List (String × FieldSpec)) :
    List (String × TypedFieldSpec) :=
  variants.map (fun p => (p.1, mkTypedField p.2 p.1))

/-- Lookup in the name-to-TypedField map. -/
def tfLookup : List (String × TypedFieldSpec) → String → Option TypedFieldSpec
  | [], _ => none
  | (k, v) :: rest, key => if k = key then some v else tfLookup rest key

/-- self._allowed_fields.get(schema_type): only a string tag can match a
declared name; any other hashable tag just misses. -/
def matchVariant (allowed : List (String × TypedFieldSpec))
    (tagV : JsonValue) : Option TypedFieldSpec :=
  match tagV with
  | .str t => tfLookup allowed t
  | _ => none

/-- OneOfArrayField.load_data loop over the input elements: read each
element's schemaType (raising on a non-dict element or an unhashable
tag, modelled as none), skip elements whose tag matches no declared
variant, and load each match into a fresh copy of its TypedField. -/
def oneOfLoadItems (allowed : List (String × TypedFieldSpec)) :
    List JsonValue → Option (List (String × TypedState))
  | [] => some []
  | item :: rest =>
    match item with
    | .obj kvs =>
      let tagV := objGet kvs "schemaType"
      if hashable tagV then
        match matchVariant allowed tagV with
        | some tf =>
          match oneOfLoadItems allowed rest with
          | some l => some ((tf.schemaType, typedLoad tf kvs) :: l)
          | none => none
        | none => oneOfLoadItems allowed rest
      else none
    | _ => none

/-- State of a OneOfArrayField: the verbatim stored data plus the list
contents (the loaded variant instances). -/
structure OneOfState where
  data : JsonValue
  items : List (String × TypedState)

/-- OneOfArrayField.load_data: store the input, clear the list (del
self[:]) and rebuild it from the input alone. -/
def oneOfLoad (allowed : List (String × TypedFieldSpec)) (_s : OneOfState)
    (input : List JsonValue) : Option OneOfState :=
  match oneOfLoadItems allowed input with
  | some l => some ⟨.arr input, l⟩
  | none => none

/-- Per-element description of the loop body: the loaded variant for a
matched element, none for a skipped one. -/
def loadMatched (allowed : List (String × TypedFieldSpec))
    (item : JsonValue) : Option (String × TypedState) :=
  match item with
  | .obj kvs =>
    match matchVariant allowed (objGet kvs "schemaType") with
    | some tf => some (tf.schemaType, typedLoad tf kvs)
    | none => none
  | _ => none

/-- Whether an input element's tag matches a declared variant. -/
def matchedTag (allowed : List (String × TypedFieldSpec))
    (item : JsonValue) : Bool :=
  (loadMatched allowed item).isSome

/-- Whether an input element can be processed without raising: it is a
dict and its schemaType value is hashable. -/
def okElement (item : JsonValue) : Bool :=
  match item with
  | .obj kvs => hashable (objGet kvs "schemaType")
  | _ => false

/-- Heaps for the instance-isolation model: each field instance's
mutable data attribute lives in its own cell. -/
def Heap : Type := Nat → JsonValue

/-- Write one heap cell. -/
def hupdate (h : Heap) (a : Nat) (v : JsonValue) : Heap :=
  fun b => if b = a then v else h b

/-- A constructed field instance: a tree mirroring the declaration in
which every node owns a fresh cell for its data attribute (ObjectField
deep-copies each declared sub-field at construction, so no two
instances share cells). -/
inductive Inst where
  | prim (spec : FieldSpec) (addr : Nat)
  | node (addr : Nat) (subs : List (String × Inst))

/-- Address of an instance's own data cell. -/
def rootAddr : Inst → Nat
  | .prim _ a => a
  | .node a _ => a

mutual

/-- Instance construction with a fresh-address counter: the counter
models the allocator, so deep-copied sub-trees get pairwise fresh
cells. -/
def allocField : FieldSpec → Nat → Inst × Nat
  | .object _ _ _ subs, n =>
    let r := allocSubs subs (n + 1)
    (.node n r.1, r.2)
  | f, n => (.prim f n, n + 1)

/-- Allocate every sub-field of an ObjectField in declaration order. -/
def allocSubs : List (String × FieldSpec) → Nat →
    List (String × Inst) × Nat
  | [], n => ([], n)
  | (nm, f) :: rest, n =>
    let r1 := allocField f n
    let r2 := allocSubs rest r1.2
    ((nm, r1.1) :: r2.1, r2.2)

end

mutual

/-- Addresses owned by an instance: its own data cell and, recursively,
those of its sub-fields. -/
def addrsInst : Inst → List Nat
  | .prim _ a => [a]
  | .node a subs => a :: addrsSubs subs

/-- Addresses owned by a sub-field list. -/
def addrsSubs : List (String × Inst) → List Nat
  | [] => []
  | (_, i) :: rest => addrsInst i ++ addrsSubs rest

end

mutual

/-- load_data acting on the heap: a primitive writes its normalised
data into its own cell; an ObjectField instance dispatches into its
sub-field instances (for dict input) and then writes the mirror dict of
their loaded data into its own cell, exactly as ObjectField.load_data
does. -/
def heapLoad : Inst → JsonValue → Heap → Heap
  | .prim spec a, x, h => hupdate h a (loadData spec x)
  | .node a subs, x, h =>
    match x with
    | .null => hupdate h a .null
    | .obj kvs =>
      let h2 := heapLoadSubs subs kvs h
      hupdate h2 a (.obj (subs.map (fun p => (p.1, h2 (rootAddr p.2)))))
    | v => hupdate h a v

/-- ObjectField.load_data loop on the heap: load data.get(name) into
each sub-field instance in declaration order. -/
def heapLoadSubs : List (String × Inst) → List (String × JsonValue) →
    Heap → Heap
  | [], _, h => h
  | (nm, i) :: rest, kvs, h => heapLoadSubs rest kvs (heapLoad i (objGet kvs nm) h)

end

/-! ## Association-list lemmas -/

theorem dictLookup_set_self (l : List (String × JsonValue)) (k : String)
    (v : JsonValue) : dictLookup (dictSet l k v) k = some v := by
  induction l with
  | nil => simp [dictSet, dictLookup]
  | cons p rest ih =>
    obtain ⟨k1, v1⟩ := p
    by_cases h : k1 = k <;> simp [dictSet, h, dictLookup, ih]

theorem dictLookup_set_ne (l : List (String × JsonValue)) {k key : String}
    (v : JsonValue) (h : k ≠ key) :
    dictLookup (dictSet l k v) key = dictLookup l key := by
  induction l with
  | nil => simp [dictSet, dictLookup, h]
  | cons p rest ih =>
    obtain ⟨k1, v1⟩ := p
    by_cases h1 : k1 = k
    · subst h1; simp [dictSet, dictLookup, h]
    · simp [dictSet, h1, dictLookup, ih]

theorem objGet_set_self (l : List (String × JsonValue)) (k : String)
    (v : JsonValue) : objGet (dictSet l k v) k = v := by
  simp [objGet, dictLookup_set_self]

theorem dictLookup_set_isSome (l : List (String × JsonValue))
    {k key : String} (v : JsonValue) (h : (dictLookup l key).isSome) :
    (dictLookup (dictSet l k v) key).isSome := by
  by_cases hk : k = key
  · subst hk; simp [dictLookup_set_self]
  · rwa [dictLookup_set_ne l v hk]

theorem dictLookup_addIfStr_ne {k key : String}
    (s : List (String × JsonValue)) (v : Option String) (h : k ≠ key) :
    dictLookup (addIfStr s k v) key = dictLookup s key := by
  cases v <;> simp [addIfStr, dictLookup_set_ne _ _ h]

theorem dictLookup_addIfNotNull_ne {k key : String}
    (s : List (String × JsonValue)) (v : JsonValue) (h : k ≠ key) :
    dictLookup (addIfNotNull s k v) key = dictLookup s key := by
  cases v <;> simp [addIfNotNull, dictLookup_set_ne _ _ h]

theorem dictLookup_addIfNotNull_self (s : List (String × JsonValue))
    (k : String) {v : JsonValue} (h : v ≠ .null) :
    dictLookup (addIfNotNull s k v) k = some v := by
  cases v <;> simp at h <;> simp [addIfNotNull, dictLookup_set_self]

theorem dictLookup_addIfNotNull_null (s : List (String × JsonValue))
    (k : String) : dictLookup (addIfNotNull s k .null) k = dictLookup s k :=
  rfl

/-! ## Base-schema lemmas -/

theorem baseSchema_lookup_title (dataType dataFormat : Option String)
    {label : JsonValue} (default : JsonValue) (h : label ≠ .null) :
    dictLookup (baseSchema dataType dataFormat label default) "title" =
      some label := by
  unfold baseSchema
  rw [dictLookup_addIfNotNull_ne _ _ (by decide : "default" ≠ "title"),
    dictLookup_addIfNotNull_self _ _ h]

theorem baseSchema_lookup_default (dataType dataFormat : Option String)
    (label : JsonValue) {default : JsonValue} (h : default ≠ .null) :
    dictLookup (baseSchema dataType dataFormat label default) "default" =
      some default := by
  unfold baseSchema
  rw [dictLookup_addIfNotNull_self _ _ h]

theorem baseSchema_lookup_other (dataType dataFormat : Option String)
    (label default : JsonValue) {key : String} (h1 : key ≠ "type")
    (h2 : key ≠ "format") (h3 : key ≠ "title") (h4 : key ≠ "default") :
    dictLookup (baseSchema dataType dataFormat label default) key = none := by
  unfold baseSchema
  rw [dictLookup_addIfNotNull_ne _ _ (Ne.symm h4),
    dictLookup_addIfNotNull_ne _ _ (Ne.symm h3),
    dictLookup_addIfStr_ne _ _ (Ne.symm h2),
    dictLookup_addIfStr_ne _ _ (Ne.symm h1)]
  rfl

theorem baseSchema_lookup_default_null (dataType dataFormat : Option String)
    (label : JsonValue) :
    dictLookup (baseSchema dataType dataFormat label .null) "default" =
      none := by
  unfold baseSchema
  rw [dictLookup_addIfNotNull_null,
    dictLookup_addIfNotNull_ne _ _ (by decide : "title" ≠ "default"),
    dictLookup_addIfStr_ne _ _ (by decide : "format" ≠ "default"),
    dictLookup_addIfStr_ne _ _ (by decide : "type" ≠ "default")]
  rfl

/-! ## C1, C8: TypedField -/

/-- C1: for every TypedField constructed with tag t, the schema contains
properties.schemaType.const == t and properties.schemaType.default == t,
and after load_data on any input mapping the field's data["schemaType"]
equals t, even when the input carried a different schemaType value. -/
theorem typedField_tag_authoritative (f : FieldSpec) (tag : String)
    (kvs : List (String × JsonValue)) :
    jget (jget (jget (.obj (typedSchema (mkTypedField f tag))) "properties")
        "schemaType") "const" = .str tag ∧
    jget (jget (jget (.obj (typedSchema (mkTypedField f tag))) "properties")
        "schemaType") "default" = .str tag ∧
    objGet (typedLoad (mkTypedField f tag) kvs).data "schemaType" = .str tag :=
  ⟨rfl, rfl, objGet_set_self kvs "schemaType" (.str tag)⟩

/-- C8 counterexample: TypedField.load_data on a mapping that lacks the
"data" key does not fail; it produces a fully defined state (dict.get
returns None, which the wrapped CharField coerces to the empty
string). -/
theorem typedField_missing_data_key_counterexample :
    typedLoadRaw (mkTypedField (mkChar .null .null false none none none) "dog")
      (.obj [("schemaType", .str "cat")]) =
    some ⟨[("schemaType", .str "dog")], .str ""⟩ := rfl

/-- C8 amended: TypedField.load_data given a mapping without a "data"
key succeeds: self.data becomes the mapping with schemaType forced to
the tag, and the wrapped field is loaded with null (data.get("data")
returning None), a defined state rather than a failure. -/
theorem typedField_load_missing_data_defined (f : FieldSpec) (tag : String)
    (kvs : List (String × JsonValue)) (h : hasKey kvs "data" = false) :
    typedLoadRaw (mkTypedField f tag) (.obj kvs) =
      some ⟨dictSet kvs "schemaType" (.str tag),
        loadData (mkTypedField f tag).field .null⟩ := by
  have h2 : dictLookup kvs "data" = none := by
    cases hd : dictLookup kvs "data" with
    | none => rfl
    | some v => rw [hasKey, hd] at h; simp at h
  have h1 : objGet (dictSet kvs "schemaType" (.str tag)) "data" = .null := by
    rw [objGet, dictLookup_set_ne _ _ (by decide : "schemaType" ≠ "data"), h2]
    rfl
  show some (⟨dictSet kvs "schemaType" (.str tag),
      loadData (mkTypedField f tag).field
        (objGet (dictSet kvs "schemaType" (.str tag)) "data")⟩ : TypedState) =
    some ⟨dictSet kvs "schemaType" (.str tag),
      loadData (mkTypedField f tag).field .null⟩
  rw [h1]

/-- C8 witness: a concrete mapping without a "data" key on which the
amended statement evaluates. -/
theorem typedField_load_missing_data_defined_witness :
    hasKey [("schemaType", JsonValue.str "x")] "data" = false ∧
    typedLoadRaw (mkTypedField (mkText .null .null false) "report_card")
      (.obj [("schemaType", .str "x")]) =
    some ⟨dictSet [("schemaType", .str "x")] "schemaType" (.str "report_card"),
      loadData (mkTypedField (mkText .null .null false) "report_card").field .null⟩ :=
  ⟨rfl, typedField_load_missing_data_defined _ _ _ rfl⟩

/-! ## C5: BooleanField -/

/-- C5: BooleanField.load_data maps the strings "true"/"True" to True
and "false"/"False" to False, and stores every other input (other
strings, and every non-string value including boolean literals)
unchanged. -/
theorem booleanField_load_coercion (l d : JsonValue) (r : Bool) :
    loadData (.boolean l d r) (.str "true") = .bool true ∧
    loadData (.boolean l d r) (.str "True") = .bool true ∧
    loadData (.boolean l d r) (.str "false") = .bool false ∧
    loadData (.boolean l d r) (.str "False") = .bool false ∧
    (∀ s : String, s ≠ "true" → s ≠ "True" → s ≠ "false" → s ≠ "False" →
      loadData (.boolean l d r) (.str s) = .str s) ∧
    (∀ x : JsonValue, (∀ s, x ≠ .str s) → loadData (.boolean l d r) x = x) := by
  refine ⟨rfl, rfl, rfl, rfl, ?_, ?_⟩
  · intro s h1 h2 h3 h4
    show boolCoerce (.str s) = .str s
    simp [boolCoerce, h1, h2, h3, h4]
  · intro x hx
    cases x with
    | str s => exact absurd rfl (hx s)
    | null => rfl
    | bool b => rfl
    | num n => rfl
    | arr items => rfl
    | obj entries => rfl

/-- C5 witness: concrete pass-through inputs. -/
theorem booleanField_load_coercion_witness :
    loadData (.boolean .null .null false) (.str "yes") = .str "yes" ∧
    loadData (.boolean .null .null false) (.bool true) = .bool true ∧
    loadData (.boolean .null .null false) (.bool false) = .bool false :=
  ⟨(booleanField_load_coercion .null .null false).2.2.2.2.1 "yes"
      (by decide) (by decide) (by decide) (by decide),
   (booleanField_load_coercion .null .null false).2.2.2.2.2 (.bool true)
      (fun s h => JsonValue.noConfusion h),
   (booleanField_load_coercion .null .null false).2.2.2.2.2 (.bool false)
      (fun s h => JsonValue.noConfusion h)⟩

/-! ## C10: string fields coerce every falsy input to "" -/

/-- C10: CharField, TextField and FilePathField load_data store the
empty string for every falsy input (not only None); hence their data is
never null after load_data, and a non-string falsy input is not
preserved verbatim. -/
theorem stringFields_falsy_to_empty (lbl dflt : JsonValue) (req : Bool)
    (choices : Option (List (JsonValue × JsonValue))) (mn mx : Option Int)
    (mt : Option String) (x : JsonValue) :
    (truthy x = false →
      loadData (.char lbl dflt req choices mn mx) x = .str "" ∧
      loadData (.text lbl dflt req) x = .str "" ∧
      loadData (.filePath lbl dflt req mt) x = .str "") ∧
    loadData (.char lbl dflt req choices mn mx) x ≠ .null ∧
    loadData (.text lbl dflt req) x ≠ .null ∧
    loadData (.filePath lbl dflt req mt) x ≠ .null ∧
    (truthy x = false → x ≠ .str "" →
      loadData (.char lbl dflt req choices mn mx) x ≠ x) := by
  have hnotnull : pyOr x (.str "") ≠ .null := by
    by_cases h : truthy x
    · simp only [pyOr, h, if_true]
      intro hx
      rw [hx] at h
      exact absurd h (by simp [truthy])
    · simp only [pyOr, h, if_false, Bool.false_eq_true]
      exact fun hx => JsonValue.noConfusion hx
  refine ⟨?_, hnotnull, hnotnull, hnotnull, ?_⟩
  · intro h
    have hempty : pyOr x (.str "") = .str "" := by simp [pyOr, h]
    exact ⟨hempty, hempty, hempty⟩
  · intro h hne
    show pyOr x (.str "") ≠ x
    simp only [pyOr, h, Bool.false_eq_true, if_false]
    exact fun e => hne e.symm

/-- C10 witness: concrete falsy inputs of several types. -/
theorem stringFields_falsy_to_empty_witness :
    loadData (.char .null .null false none none none) (.bool false) = .str "" ∧
    loadData (.text .null .null false) (.num 0) = .str "" ∧
    loadData (.filePath .null .null false none) (.arr []) = .str "" ∧
    loadData (.char .null .null false none none none) (.num 0) ≠ .num 0 :=
  ⟨((stringFields_falsy_to_empty .null .null false none none none none
      (.bool false)).1 rfl).1,
   ((stringFields_falsy_to_empty .null .null false none none none none
      (.num 0)).1 (by decide)).2.1,
   ((stringFields_falsy_to_empty .null .null false none none none none
      (.arr [])).1 rfl).2.2,
   (stringFields_falsy_to_empty .null .null false none none none none
      (.num 0)).2.2.2.2 (by decide) (fun h => JsonValue.noConfusion h)⟩

/-! ## C4: CharField minLength and maxLength -/

/-- Variant of dictLookup_set_ne with the disequality first, convenient
as a partially applied simp lemma. -/
theorem dictLookup_set_ne2 {k key : String} (h : k ≠ key)
    (l : List (String × JsonValue)) (v : JsonValue) :
    dictLookup (dictSet l k v) key = dictLookup l key :=
  dictLookup_set_ne l v h

/-- C4 counterexample: an explicitly configured min_length = 0 or
max_length = 0 does not appear in the schema at all (Python truthiness
drops it), and with required = true it also suppresses minLength: 1. -/
theorem charField_length_zero_counterexample :
    dictLookup (fieldSchema (mkChar .null .null true none (some 0) (some 0)))
      "minLength" = none ∧
    dictLookup (fieldSchema (mkChar .null .null true none (some 0) (some 0)))
      "maxLength" = none :=
  ⟨rfl, rfl⟩

/-- C4 amended: a required CharField with no explicit min_length gets
minLength 1; an explicit nonzero min_length/max_length appears verbatim
regardless of required; an explicit zero bound is dropped entirely
(truthiness), a zero min_length also disabling the required default. -/
theorem charField_length_schema (l d : JsonValue) (r : Bool)
    (c : Option (List (JsonValue × JsonValue))) (mn mx : Option Int) :
    (r = true → mn = none →
      dictLookup (fieldSchema (.char l d r c mn mx)) "minLength" =
        some (.num 1)) ∧
    (∀ m : Int, mn = some m → m ≠ 0 →
      dictLookup (fieldSchema (.char l d r c mn mx)) "minLength" =
        some (.num m)) ∧
    (∀ m : Int, mx = some m → m ≠ 0 →
      dictLookup (fieldSchema (.char l d r c mn mx)) "maxLength" =
        some (.num m)) ∧
    (mn = some 0 →
      dictLookup (fieldSchema (.char l d r c mn mx)) "minLength" = none) ∧
    (mx = some 0 →
      dictLookup (fieldSchema (.char l d r c mn mx)) "maxLength" = none) := by
  have hbase_min : dictLookup (baseSchema (some "string") (some "text") l d)
      "minLength" = none :=
    baseSchema_lookup_other _ _ _ _ (by decide) (by decide) (by decide)
      (by decide)
  have hbase_max : dictLookup (baseSchema (some "string") (some "text") l d)
      "maxLength" = none :=
    baseSchema_lookup_other _ _ _ _ (by decide) (by decide) (by decide)
      (by decide)
  have hch_min : dictLookup
      (match c with
       | some cs =>
         if !cs.isEmpty then
           dictSet (dictSet (baseSchema (some "string") (some "text") l d)
             "enumSource" (enumSourceVal cs)) "enum" (.arr (cs.map Prod.fst))
         else baseSchema (some "string") (some "text") l d
       | none => baseSchema (some "string") (some "text") l d)
      "minLength" = none := by
    rcases c with _ | cs
    · exact hbase_min
    · by_cases hcs : cs.isEmpty <;>
        simp [hcs, dictLookup_set_ne2 (by decide : ("enum" : String) ≠ "minLength"),
          dictLookup_set_ne2 (by decide : ("enumSource" : String) ≠ "minLength"),
          hbase_min]
  refine ⟨?_, ?_, ?_, ?_, ?_⟩
  · rintro rfl rfl
    rcases mx with _ | m
    · simp [fieldSchema, FieldSpec.label, fieldSchemaWith, dictLookup_set_self]
    · by_cases hm : m = 0 <;>
        simp [fieldSchema, FieldSpec.label, fieldSchemaWith, hm,
          dictLookup_set_ne2 (by decide : ("maxLength" : String) ≠ "minLength"),
          dictLookup_set_self]
  · rintro m rfl hm
    rcases mx with _ | m2
    · simp [fieldSchema, FieldSpec.label, fieldSchemaWith, hm,
        dictLookup_set_self]
    · by_cases hm2 : m2 = 0 <;>
        simp [fieldSchema, FieldSpec.label, fieldSchemaWith, hm, hm2,
          dictLookup_set_ne2 (by decide : ("maxLength" : String) ≠ "minLength"),
          dictLookup_set_self]
  · rintro m rfl hm
    simp [fieldSchema, FieldSpec.label, fieldSchemaWith, hm, dictLookup_set_self]
  · rintro rfl
    rcases mx with _ | m2
    · simp [fieldSchema, FieldSpec.label, fieldSchemaWith, hch_min]
    · by_cases hm2 : m2 = 0 <;>
        simp [fieldSchema, FieldSpec.label, fieldSchemaWith, hm2,
          dictLookup_set_ne2 (by decide : ("maxLength" : String) ≠ "minLength"),
          hch_min]
  · rintro rfl
    rcases c with _ | cs <;> rcases mn with _ | m <;>
        by_cases hr : r = true <;>
        try by_cases hcs : cs.isEmpty = true
    all_goals try by_cases hm : m = 0
    all_goals
      simp [fieldSchema, FieldSpec.label, fieldSchemaWith, hr, hbase_max,
        dictLookup_set_ne2 (by decide : ("minLength" : String) ≠ "maxLength"),
        dictLookup_set_ne2 (by decide : ("enum" : String) ≠ "maxLength"),
        dictLookup_set_ne2 (by decide : ("enumSource" : String) ≠ "maxLength"),
        *]

/-- C4 witness: concrete required and length configurations. -/
theorem charField_length_schema_witness :
    dictLookup (fieldSchema (.char .null .null true none none none))
      "minLength" = some (.num 1) ∧
    dictLookup (fieldSchema (.char .null .null false none (some 5) (some 9)))
      "minLength" = some (.num 5) ∧
    dictLookup (fieldSchema (.char .null .null false none (some 5) (some 9)))
      "maxLength" = some (.num 9) ∧
    dictLookup (fieldSchema (.char .null .null false none (some 0) (some 0)))
      "minLength" = none :=
  ⟨(charField_length_schema .null .null true none none none).1 rfl rfl,
   (charField_length_schema .null .null false none (some 5) (some 9)).2.1 5 rfl
     (by decide),
   (charField_length_schema .null .null false none (some 5) (some 9)).2.2.1 9 rfl
     (by decide),
   (charField_length_schema .null .null false none (some 0) (some 0)).2.2.2.1
     rfl⟩

/-! ## C6: schema default -/

/-- Variant of baseSchema_lookup_default with the hypothesis first,
convenient as a partially applied simp lemma. -/
theorem baseSchema_lookup_default2 {default : JsonValue}
    (h : default ≠ .null) (dataType dataFormat : Option String)
    (label : JsonValue) :
    dictLookup (baseSchema dataType dataFormat label default) "default" =
      some default :=
  baseSchema_lookup_default dataType dataFormat label h

/-- Kinds of primitive (non-composite) fields, used to quantify over all
primitive Field subclasses at once. -/
inductive PrimKind where
  | charK | textK | booleanK | integerK | decimalK | filePathK

/-- Construct a primitive field of the given kind with label/default
keyword arguments and a required flag (class-specific extras omitted,
i.e. left at their defaults). -/
def mkPrim : PrimKind → JsonValue → JsonValue → Bool → FieldSpec
  | .charK, l, d, r => mkChar l d r none none none
  | .textK, l, d, r => mkText l d r
  | .booleanK, l, d, r => mkBoolean l d r
  | .integerK, l, d, r => mkInteger l d r
  | .decimalK, l, d, r => mkDecimal l d r
  | .filePathK, l, d, r => mkFilePath l d r none

/-- A field instance: its declaration together with its current data
attribute (None at construction, overwritten by load_data). -/
structure FInst where
  spec : FieldSpec
  data : JsonValue

/-- load_data on an instance: only the data attribute changes. -/
def FInst.loadInst (i : FInst) (x : JsonValue) : FInst :=
  ⟨i.spec, loadData i.spec x⟩

/-- The schema read off an instance. -/
def FInst.schemaOf (i : FInst) : List (String × JsonValue) :=
  fieldSchema i.spec

/-- C6 counterexample: a falsy configured default (0, "", False) is
discarded by the `or` in Field.__init__, so the schema omits the
default key entirely, contradicting the claim that every configured
default is echoed. -/
theorem schema_default_falsy_counterexample :
    dictLookup (fieldSchema (mkInteger .null (.num 0) false)) "default" = none ∧
    dictLookup (fieldSchema (mkChar .null (.str "") false none none none))
      "default" = none ∧
    dictLookup (fieldSchema (mkBoolean .null (.bool false) false)) "default" =
      none :=
  ⟨rfl, rfl, rfl⟩

/-- C6 amended: a configured default d appears in the schema as
"default": d exactly when d is truthy (falsy defaults are discarded at
construction by `kwargs.get("default") or ...`); and the schema never
depends on data loaded via load_data. -/
theorem schema_default_requires_truthy (k : PrimKind) (lKw dKw : JsonValue)
    (r : Bool) (subs : List (String × FieldSpec)) :
    (truthy dKw = true →
      dictLookup (fieldSchema (mkPrim k lKw dKw r)) "default" = some dKw ∧
      dictLookup (fieldSchema (mkObject lKw dKw r subs)) "default" = some dKw) ∧
    (truthy dKw = false →
      dictLookup (fieldSchema (mkPrim k lKw dKw r)) "default" = none ∧
      dictLookup (fieldSchema (mkObject lKw dKw r subs)) "default" = none) ∧
    (∀ (i : FInst) (x : JsonValue),
      FInst.schemaOf (FInst.loadInst i x) = FInst.schemaOf i) := by
  refine ⟨?_, ?_, fun i x => rfl⟩
  · intro ht
    have hOr : pyOr dKw .null = dKw := by simp [pyOr, ht]
    have hne : dKw ≠ .null := by
      intro e
      rw [e] at ht
      simp [truthy] at ht
    constructor
    · cases k <;> by_cases hr : r = true <;>
        simp [mkPrim, mkChar, mkText, mkBoolean, mkInteger, mkDecimal,
          mkFilePath, fieldSchema, FieldSpec.label, fieldSchemaWith, hOr, hr,
          dictLookup_set_ne2 (by decide : ("minLength" : String) ≠ "default"),
          dictLookup_set_ne2 (by decide : ("links" : String) ≠ "default"),
          baseSchema_lookup_default2 hne]
    · simp [mkObject, fieldSchema, FieldSpec.label, fieldSchemaWith, hOr,
        dictLookup_set_ne2 (by decide : ("required" : String) ≠ "default"),
        dictLookup_set_ne2 (by decide : ("properties" : String) ≠ "default"),
        baseSchema_lookup_default2 hne]
  · intro ht
    have hOr : pyOr dKw .null = .null := by simp [pyOr, ht]
    constructor
    · cases k <;> by_cases hr : r = true <;>
        simp [mkPrim, mkChar, mkText, mkBoolean, mkInteger, mkDecimal,
          mkFilePath, fieldSchema, FieldSpec.label, fieldSchemaWith, hOr, hr,
          dictLookup_set_ne2 (by decide : ("minLength" : String) ≠ "default"),
          dictLookup_set_ne2 (by decide : ("links" : String) ≠ "default"),
          baseSchema_lookup_default_null]
    · simp [mkObject, fieldSchema, FieldSpec.label, fieldSchemaWith, hOr,
        dictLookup_set_ne2 (by decide : ("required" : String) ≠ "default"),
        dictLookup_set_ne2 (by decide : ("properties" : String) ≠ "default"),
        baseSchema_lookup_default_null]

/-- C6 witness: a truthy default is echoed, and loading data does not
change a concrete instance's schema. -/
theorem schema_default_requires_truthy_witness :
    dictLookup (fieldSchema (mkPrim .charK .null (.str "a") true)) "default" =
      some (.str "a") ∧
    dictLookup (fieldSchema (mkObject .null (.num 7) false [])) "default" =
      some (.num 7) ∧
    FInst.schemaOf (FInst.loadInst ⟨mkPrim .textK .null .null false, .null⟩
      (.str "hello")) =
      FInst.schemaOf ⟨mkPrim .textK .null .null false, .null⟩ :=
  ⟨((schema_default_requires_truthy .charK .null (.str "a") true []).1
      (by decide)).1,
   ((schema_default_requires_truthy .integerK .null (.num 7) false []).1
      (by decide)).2,
   (schema_default_requires_truthy .textK .null .null false []).2.2
      ⟨mkPrim .textK .null .null false, .null⟩ (.str "hello")⟩

/-! ## C3: ObjectField required list and titleized sub-field titles -/

/-- Title lookup in a base schema whose label is a string literal. -/
theorem baseSchema_lookup_title_str (dataType dataFormat : Option String)
    (default : JsonValue) (t : String) :
    dictLookup (baseSchema dataType dataFormat (.str t) default) "title" =
      some (.str t) :=
  baseSchema_lookup_title dataType dataFormat default
    (fun h => JsonValue.noConfusion h)

/-- Whatever the field kind and its extra configuration, the schema
computed with label t has title t: no extension layer ever writes the
title key. -/
theorem fieldSchemaWith_title (f : FieldSpec) (t : String) :
    dictLookup (fieldSchemaWith f (.str t)) "title" = some (.str t) := by
  cases f with
  | char l d r c mn mx =>
    rcases c with _ | cs <;> rcases mn with _ | m <;> rcases mx with _ | m2 <;>
      by_cases hr : r = true <;> try by_cases hcs : cs.isEmpty = true
    all_goals try by_cases hm : m = 0
    all_goals try by_cases hm2 : m2 = 0
    all_goals
      simp [fieldSchemaWith, hr,
        dictLookup_set_ne2 (by decide : ("maxLength" : String) ≠ "title"),
        dictLookup_set_ne2 (by decide : ("minLength" : String) ≠ "title"),
        dictLookup_set_ne2 (by decide : ("enum" : String) ≠ "title"),
        dictLookup_set_ne2 (by decide : ("enumSource" : String) ≠ "title"),
        baseSchema_lookup_title_str, *]
  | text l d r =>
    by_cases hr : r = true <;>
      simp [fieldSchemaWith, hr,
        dictLookup_set_ne2 (by decide : ("minLength" : String) ≠ "title"),
        baseSchema_lookup_title_str]
  | boolean l d r => simp [fieldSchemaWith, baseSchema_lookup_title_str]
  | integer l d r => simp [fieldSchemaWith, baseSchema_lookup_title_str]
  | decimal l d r => simp [fieldSchemaWith, baseSchema_lookup_title_str]
  | filePath l d r m =>
    by_cases hr : r = true <;>
      simp [fieldSchemaWith, hr,
        dictLookup_set_ne2 (by decide : ("links" : String) ≠ "title"),
        dictLookup_set_ne2 (by decide : ("minLength" : String) ≠ "title"),
        baseSchema_lookup_title_str]
  | object l d r subs =>
    simp [fieldSchemaWith,
      dictLookup_set_ne2 (by decide : ("required" : String) ≠ "title"),
      dictLookup_set_ne2 (by decide : ("properties" : String) ≠ "title"),
      baseSchema_lookup_title_str]

/-- Every value stored in the properties dict under key n is an object
schema whose title is the titleized n (ObjectField.schema overwrites
each sub-field label before reading its schema). -/
theorem objPropsGo_lookup_titleP (subs : List (String × FieldSpec)) :
    ∀ (acc : List (String × JsonValue)) (n : String),
    (∀ v, dictLookup acc n = some v →
      ∃ sch, v = .obj sch ∧ dictLookup sch "title" = some (.str (titleize n))) →
    ∀ v, dictLookup (objPropsGo subs acc) n = some v →
      ∃ sch, v = .obj sch ∧
        dictLookup sch "title" = some (.str (titleize n)) := by
  induction subs with
  | nil =>
    intro acc n hacc v hv
    exact hacc v hv
  | cons p rest ih =>
    obtain ⟨m, g⟩ := p
    intro acc n hacc v hv
    refine ih _ n ?_ v hv
    intro w hw
    by_cases hmn : m = n
    · subst hmn
      rw [dictLookup_set_self] at hw
      cases hw
      exact ⟨_, rfl, fieldSchemaWith_title g (titleize m)⟩
    · rw [dictLookup_set_ne _ _ hmn] at hw
      exact hacc w hw

/-- The properties dict has an entry for every declared sub-field
name. -/
theorem objPropsGo_mem_isSome (subs : List (String × FieldSpec)) :
    ∀ (acc : List (String × JsonValue)) (n : String) (f : FieldSpec),
    ((n, f) ∈ subs ∨ (dictLookup acc n).isSome = true) →
    (dictLookup (objPropsGo subs acc) n).isSome = true := by
  induction subs with
  | nil =>
    intro acc n f h
    rcases h with h | h
    · cases h
    · exact h
  | cons p rest ih =>
    obtain ⟨m, g⟩ := p
    intro acc n f h
    rcases h with h | h
    · rcases List.mem_cons.mp h with heq | hmem
      · refine ih _ n f (Or.inr ?_)
        cases heq
        rw [dictLookup_set_self]
        rfl
      · exact ih _ n f (Or.inl hmem)
    · exact ih _ n f (Or.inr (dictLookup_set_isSome _ _ h))

/-- C3: ObjectField.schema.required is exactly the list of sub-field
names whose required flag is set, in declaration order, and every
properties[n].title equals n title-cased with underscores replaced by
spaces regardless of any declared label. -/
theorem objectField_schema_required_titles (l d : JsonValue) (r : Bool)
    (subs : List (String × FieldSpec)) :
    dictLookup (fieldSchema (.object l d r subs)) "required" =
      some (.arr (subs.filterMap
        (fun p => if p.2.required then some (.str p.1) else none))) ∧
    (∀ n f, (n, f) ∈ subs →
      jget (jget (jget (.obj (fieldSchema (.object l d r subs))) "properties")
        n) "title" = .str (titleize n)) := by
  have hprops : dictLookup (fieldSchema (.object l d r subs)) "properties" =
      some (.obj (objPropsGo subs [])) := by
    show dictLookup
      (dictSet (dictSet (baseSchema (some "object") none l d) "properties"
        (.obj (objPropsGo subs []))) "required" (.arr (getRequired subs)))
      "properties" = _
    rw [dictLookup_set_ne _ _ (by decide : "required" ≠ "properties"),
      dictLookup_set_self]
  constructor
  · show dictLookup
      (dictSet (dictSet (baseSchema (some "object") none l d) "properties"
        (.obj (objPropsGo subs []))) "required" (.arr (getRequired subs)))
      "required" = _
    rw [dictLookup_set_self]
    rfl
  · intro n f hmem
    have hsome := objPropsGo_mem_isSome subs [] n f (Or.inl hmem)
    obtain ⟨v, hv⟩ := Option.isSome_iff_exists.mp hsome
    obtain ⟨sch, rfl, htitle⟩ :=
      objPropsGo_lookup_titleP subs [] n
        (by intro w hw; simp [dictLookup] at hw) v hv
    simp [jget, objGet, hprops, hv, htitle]

/-- C3 witness: a two-field declaration in which a declared label is
overridden by the titleized attribute name. -/
theorem objectField_schema_required_titles_witness :
    dictLookup (fieldSchema (.object .null .null false
      [("first_name", mkChar (.str "label override") .null true none none none),
       ("age", mkInteger .null .null false)])) "required" =
      some (.arr [.str "first_name"]) ∧
    jget (jget (jget (.obj (fieldSchema (.object .null .null false
      [("first_name", mkChar (.str "label override") .null true none none none),
       ("age", mkInteger .null .null false)]))) "properties") "first_name")
      "title" = .str "First Name" :=
  ⟨(objectField_schema_required_titles .null .null false
      [("first_name", mkChar (.str "label override") .null true none none none),
       ("age", mkInteger .null .null false)]).1.trans rfl,
   ((objectField_schema_required_titles .null .null false
      [("first_name", mkChar (.str "label override") .null true none none none),
       ("age", mkInteger .null .null false)]).2 "first_name"
      (mkChar (.str "label override") .null true none none none)
      (List.Mem.head _)).trans rfl⟩

/-! ## C7: load_data round-trip stability -/

/-- Structural induction over FieldSpec that, at an ObjectField, gives
the inductive hypothesis for every declared sub-field. -/
theorem fieldSpecInduction (P : FieldSpec → Prop)
    (hchar : ∀ l d r c mn mx, P (.char l d r c mn mx))
    (htext : ∀ l d r, P (.text l d r))
    (hbool : ∀ l d r, P (.boolean l d r))
    (hint : ∀ l d r, P (.integer l d r))
    (hdec : ∀ l d r, P (.decimal l d r))
    (hfile : ∀ l d r m, P (.filePath l d r m))
    (hobj : ∀ l d r subs, (∀ p ∈ subs, P p.2) → P (.object l d r subs)) :
    ∀ f, P f
  | .char l d r c mn mx => hchar l d r c mn mx
  | .text l d r => htext l d r
  | .boolean l d r => hbool l d r
  | .integer l d r => hint l d r
  | .decimal l d r => hdec l d r
  | .filePath l d r m => hfile l d r m
  | .object l d r subs =>
    hobj l d r subs (fun p _hp =>
      fieldSpecInduction P hchar htext hbool hint hdec hfile hobj p.2)
termination_by f => sizeOf f
decreasing_by
  have hs := List.sizeOf_lt_of_mem _hp
  obtain ⟨a, b⟩ := p
  simp only [Prod.mk.sizeOf_spec] at hs
  simp only [FieldSpec.object.sizeOf_spec]
  omega

/-- `data or ""` is stable under a second application. -/
theorem pyOrEmpty_stable (d : JsonValue) :
    pyOr (pyOr d (.str "")) (.str "") = pyOr d (.str "") := by
  by_cases h : truthy d
  · simp [pyOr, h]
  · have h0 : pyOr d (.str "") = .str "" := by simp [pyOr, h]
    rw [h0]
    have h1 : truthy (.str "") = false := by decide
    simp [pyOr, h1]

/-- The BooleanField string coercion is idempotent. -/
theorem boolCoerce_stable (x : JsonValue) :
    boolCoerce (boolCoerce x) = boolCoerce x := by
  cases x with
  | str s =>
    by_cases h1 : s = "true" ∨ s = "True"
    · simp [boolCoerce, h1]
    · by_cases h2 : s = "false" ∨ s = "False" <;> simp [boolCoerce, h1, h2]
  | null => rfl
  | bool b => rfl
  | num n => rfl
  | arr items => rfl
  | obj entries => rfl

/-- Splitting the distinctness check at a cons cell. -/
theorem namesNodup_cons {n : String} {rest : List String}
    (h : namesNodup (n :: rest) = true) :
    rest.any (fun m => m = n) = false ∧ namesNodup rest = true := by
  simp only [namesNodup, Bool.and_eq_true, Bool.not_eq_eq_eq_not,
    Bool.not_true] at h
  exact ⟨h.1, h.2⟩

/-- With distinct sub-field names, the loaded dict maps each name to
its own sub-field's loaded data. -/
theorem dictLookup_loadSubs_nodup (subs : List (String × FieldSpec))
    (kvs : List (String × JsonValue))
    (hnd : namesNodup (subs.map Prod.fst) = true) :
    ∀ n f, (n, f) ∈ subs →
      dictLookup (loadSubs subs kvs) n = some (loadData f (objGet kvs n)) := by
  induction subs with
  | nil =>
    intro n f h
    cases h
  | cons p rest ih =>
    obtain ⟨m, g⟩ := p
    intro n f hmem
    have hnd' : (rest.map Prod.fst).any (fun x => x = m) = false ∧
        namesNodup (rest.map Prod.fst) = true := namesNodup_cons hnd
    rcases List.mem_cons.mp hmem with heq | hmem'
    · cases heq
      simp [loadSubs, dictLookup]
    · by_cases hnm : m = n
      · exfalso
        subst hnm
        have hin : m ∈ rest.map Prod.fst :=
          List.mem_map.mpr ⟨(m, f), hmem', rfl⟩
        have hany : (rest.map Prod.fst).any (fun x => x = m) = true :=
          List.any_eq_true.mpr ⟨m, hin, by simp⟩
        rw [hnd'.1] at hany
        cases hany
      · simp only [loadSubs, dictLookup, hnm, if_false]
        exact ih hnd'.2 n f hmem'

/-- Reloading the dict produced by loadSubs reproduces it entry by
entry, provided names are distinct and each sub-field load is stable. -/
theorem loadSubs_reload (subs : List (String × FieldSpec))
    (kvs : List (String × JsonValue))
    (hnd : namesNodup (subs.map Prod.fst) = true)
    (hstab : ∀ p ∈ subs, ∀ u, loadData p.2 (loadData p.2 u) = loadData p.2 u) :
    ∀ (part : List (String × FieldSpec)), (∀ p ∈ part, p ∈ subs) →
      loadSubs part (loadSubs subs kvs) = loadSubs part kvs := by
  intro part
  induction part with
  | nil => intro _; rfl
  | cons p rest ih =>
    obtain ⟨n, f⟩ := p
    intro hsubset
    have hmem : (n, f) ∈ subs := hsubset _ (List.Mem.head _)
    have hget : objGet (loadSubs subs kvs) n = loadData f (objGet kvs n) := by
      rw [objGet, dictLookup_loadSubs_nodup subs kvs hnd n f hmem]
      rfl
    simp only [loadSubs, hget, hstab (n, f) hmem]
    rw [ih (fun q hq => hsubset q (List.Mem.tail _ hq))]

/-- Well-formedness of a sub-field list gives well-formedness of each
member. -/
theorem wfSubs_mem {subs : List (String × FieldSpec)}
    (h : wfSubs subs = true) : ∀ p ∈ subs, wfS p.2 = true := by
  induction subs with
  | nil =>
    intro p hp
    cases hp
  | cons q rest ih =>
    obtain ⟨a, b⟩ := q
    intro p hp
    simp only [wfSubs, Bool.and_eq_true] at h
    rcases List.mem_cons.mp hp with rfl | hmem
    · exact h.1
    · exact ih h.2 p hmem

/-- C7: for every primitive field and every (well-formed) ObjectField,
loading a value, reading back data, and loading that value again yields
the same data: load_data is stable across a serialize/reload round
trip. -/
theorem loadData_roundtrip (f : FieldSpec) (hwf : wfS f = true)
    (x : JsonValue) : loadData f (loadData f x) = loadData f x := by
  revert hwf x
  induction f using fieldSpecInduction with
  | hchar l d r c mn mx =>
    intro _ x
    exact pyOrEmpty_stable x
  | htext l d r =>
    intro _ x
    exact pyOrEmpty_stable x
  | hbool l d r =>
    intro _ x
    exact boolCoerce_stable x
  | hint l d r =>
    intro _ x
    rfl
  | hdec l d r =>
    intro _ x
    rfl
  | hfile l d r m =>
    intro _ x
    exact pyOrEmpty_stable x
  | hobj l d r subs ih =>
    intro hwf x
    have hnd : namesNodup (subs.map Prod.fst) = true ∧ wfSubs subs = true := by
      simp only [wfS, Bool.and_eq_true] at hwf
      exact hwf
    have hstab : ∀ p ∈ subs, ∀ u,
        loadData p.2 (loadData p.2 u) = loadData p.2 u :=
      fun p hp => ih p hp (wfSubs_mem hnd.2 p hp)
    cases x with
    | null => rfl
    | obj kvs =>
      show JsonValue.obj (loadSubs subs (loadSubs subs kvs)) =
        .obj (loadSubs subs kvs)
      rw [loadSubs_reload subs kvs hnd.1 hstab subs (fun q hq => hq)]
    | bool b => rfl
    | num n => rfl
    | str s => rfl
    | arr items => rfl

/-- C7 witness: a concrete object declaration and input. -/
theorem loadData_roundtrip_witness :
    wfS (mkObject .null .null false
      [("name", mkChar .null .null true none none none),
       ("happy", mkBoolean .null .null false)]) = true ∧
    loadData (mkObject .null .null false
      [("name", mkChar .null .null true none none none),
       ("happy", mkBoolean .null .null false)])
      (loadData (mkObject .null .null false
        [("name", mkChar .null .null true none none none),
         ("happy", mkBoolean .null .null false)])
        (.obj [("name", .str "Rex"), ("happy", .str "true")])) =
    loadData (mkObject .null .null false
      [("name", mkChar .null .null true none none none),
       ("happy", mkBoolean .null .null false)])
      (.obj [("name", .str "Rex"), ("happy", .str "true")]) :=
  ⟨rfl, loadData_roundtrip (mkObject .null .null false
      [("name", mkChar .null .null true none none none),
       ("happy", mkBoolean .null .null false)]) rfl
      (.obj [("name", .str "Rex"), ("happy", .str "true")])⟩

/-! ## C2: OneOfArrayField load_data -/

/-- When every element is a dict with a hashable tag, the load loop
succeeds and produces exactly the per-element filterMap of the loop
body: matched variants in input order, unmatched tags skipped. -/
theorem oneOfLoadItems_eq_filterMap (allowed : List (String × TypedFieldSpec)) :
    ∀ (input : List JsonValue), (∀ v ∈ input, okElement v = true) →
      oneOfLoadItems allowed input =
        some (input.filterMap (loadMatched allowed)) := by
  intro input
  induction input with
  | nil => intro _; rfl
  | cons item rest ih =>
    intro h
    have hitem := h item (List.Mem.head _)
    have hrest := ih (fun v hv => h v (List.Mem.tail _ hv))
    cases item with
    | obj kvs =>
      have hh : hashable (objGet kvs "schemaType") = true := by
        simpa [okElement] using hitem
      cases hmv : matchVariant allowed (objGet kvs "schemaType") with
      | some tf =>
        simp [oneOfLoadItems, hh, hmv, hrest, loadMatched]
      | none =>
        simp [oneOfLoadItems, hh, hmv, hrest, loadMatched]
    | null => simp [okElement] at hitem
    | bool b => simp [okElement] at hitem
    | num n => simp [okElement] at hitem
    | str s2 => simp [okElement] at hitem
    | arr items => simp [okElement] at hitem

/-- Length of a filterMap as a count of matches. -/
theorem length_filterMap_countP {α β : Type} (g : α → Option β) :
    ∀ l : List α,
      (l.filterMap g).length = l.countP (fun a => (g a).isSome) := by
  intro l
  induction l with
  | nil => rfl
  | cons a rest ih =>
    cases hg : g a <;>
      simp [List.filterMap_cons, hg, List.countP_cons, ih]

/-- C2: OneOfArrayField.load_data on a list of N dict elements of which
M carry a tag matching a declared variant produces exactly the M
matched variants in input order (unmatched tags silently dropped), and
the result does not depend on the prior collection contents: a second
load fully replaces them. -/
theorem oneOfArrayField_load_replaces (variants : List (String × FieldSpec))
    (s s' : OneOfState) (input : List JsonValue)
    (h : ∀ v ∈ input, okElement v = true) :
    oneOfLoad (allowedFields variants) s input =
      some ⟨.arr input,
        input.filterMap (loadMatched (allowedFields variants))⟩ ∧
    (input.filterMap (loadMatched (allowedFields variants))).length =
      input.countP (matchedTag (allowedFields variants)) ∧
    oneOfLoad (allowedFields variants) s input =
      oneOfLoad (allowedFields variants) s' input := by
  have h1 := oneOfLoadItems_eq_filterMap (allowedFields variants) input h
  refine ⟨?_, ?_, rfl⟩
  · simp [oneOfLoad, h1]
  · rw [length_filterMap_countP]
    rfl

/-- C2 witness: a dog/fish input against a dog-only declaration, loaded
over a non-empty stale collection. -/
theorem oneOfArrayField_load_replaces_witness :
    okElement (.obj [("schemaType", .str "dog"), ("data", .str "Rex")]) =
      true ∧
    oneOfLoad (allowedFields [("dog", mkChar .null .null false none none none)])
      ⟨.null, [("stale", ⟨[], .null⟩)]⟩
      [.obj [("schemaType", .str "dog"), ("data", .str "Rex")],
       .obj [("schemaType", .str "fish"), ("data", .str "x")]] =
      some ⟨.arr [.obj [("schemaType", .str "dog"), ("data", .str "Rex")],
                  .obj [("schemaType", .str "fish"), ("data", .str "x")]],
        ([.obj [("schemaType", .str "dog"), ("data", .str "Rex")],
          .obj [("schemaType", .str "fish"), ("data", .str "x")]].filterMap
          (loadMatched (allowedFields
            [("dog", mkChar .null .null false none none none)])))⟩ :=
  ⟨rfl,
   (oneOfArrayField_load_replaces
      [("dog", mkChar .null .null false none none none)]
      ⟨.null, [("stale", ⟨[], .null⟩)]⟩ ⟨.null, []⟩
      [.obj [("schemaType", .str "dog"), ("data", .str "Rex")],
       .obj [("schemaType", .str "fish"), ("data", .str "x")]]
      (by decide)).1⟩

/-! ## C9: instance isolation (deep copy gives fresh cells) -/

/-- Structural induction over Inst with the hypothesis available for
every sub-instance. -/
theorem instInduction (P : Inst → Prop)
    (hprim : ∀ spec a, P (.prim spec a))
    (hnode : ∀ a subs, (∀ p ∈ subs, P p.2) → P (.node a subs)) :
    ∀ i, P i
  | .prim spec a => hprim spec a
  | .node a subs => hnode a subs (fun p _hp => instInduction P hprim hnode p.2)
termination_by i => sizeOf i
decreasing_by
  have hs := List.sizeOf_lt_of_mem _hp
  obtain ⟨u, v⟩ := p
  simp only [Prod.mk.sizeOf_spec] at hs
  simp only [Inst.node.sizeOf_spec]
  omega

/-- Allocation of a sub-field list stays within the counter range. -/
theorem allocSubs_range (subs : List (String × FieldSpec))
    (H : ∀ p ∈ subs, ∀ n : Nat, n < (allocField p.2 n).2 ∧
      ∀ a ∈ addrsInst (allocField p.2 n).1, n ≤ a ∧ a < (allocField p.2 n).2) :
    ∀ n : Nat, n ≤ (allocSubs subs n).2 ∧
      ∀ a ∈ addrsSubs (allocSubs subs n).1,
        n ≤ a ∧ a < (allocSubs subs n).2 := by
  induction subs with
  | nil =>
    intro n
    refine ⟨le_refl n, ?_⟩
    intro a ha
    simp [allocSubs, addrsSubs] at ha
  | cons p rest ih =>
    obtain ⟨nm, f⟩ := p
    intro n
    have h1 := H (nm, f) (List.Mem.head _) n
    have ihr := ih (fun q hq n2 => H q (List.Mem.tail _ hq) n2) (allocField f n).2
    constructor
    · show n ≤ (allocSubs rest (allocField f n).2).2
      exact le_trans (le_of_lt h1.1) ihr.1
    · intro a ha
      have ha' : a ∈ addrsInst (allocField f n).1 ++
          addrsSubs (allocSubs rest (allocField f n).2).1 := ha
      rcases List.mem_append.mp ha' with hm | hm
      · have hr := h1.2 a hm
        exact ⟨hr.1, lt_of_lt_of_le hr.2 ihr.1⟩
      · have hr := ihr.2 a hm
        exact ⟨le_trans (le_of_lt h1.1) hr.1, hr.2⟩

/-- Allocation always advances the counter and every owned address lies
inside the allocated range, so sequentially constructed instances own
disjoint cells. -/
theorem allocField_range : ∀ (f : FieldSpec) (n : Nat),
    n < (allocField f n).2 ∧
    ∀ a ∈ addrsInst (allocField f n).1, n ≤ a ∧ a < (allocField f n).2 := by
  intro f
  induction f using fieldSpecInduction with
  | hchar l d r c mn mx =>
    intro n
    refine ⟨Nat.lt_succ_self n, ?_⟩
    intro a ha
    have he : a = n := by simpa [allocField, addrsInst] using ha
    subst he
    exact ⟨le_refl a, Nat.lt_succ_self a⟩
  | htext l d r =>
    intro n
    refine ⟨Nat.lt_succ_self n, ?_⟩
    intro a ha
    have he : a = n := by simpa [allocField, addrsInst] using ha
    subst he
    exact ⟨le_refl a, Nat.lt_succ_self a⟩
  | hbool l d r =>
    intro n
    refine ⟨Nat.lt_succ_self n, ?_⟩
    intro a ha
    have he : a = n := by simpa [allocField, addrsInst] using ha
    subst he
    exact ⟨le_refl a, Nat.lt_succ_self a⟩
  | hint l d r =>
    intro n
    refine ⟨Nat.lt_succ_self n, ?_⟩
    intro a ha
    have he : a = n := by simpa [allocField, addrsInst] using ha
    subst he
    exact ⟨le_refl a, Nat.lt_succ_self a⟩
  | hdec l d r =>
    intro n
    refine ⟨Nat.lt_succ_self n, ?_⟩
    intro a ha
    have he : a = n := by simpa [allocField, addrsInst] using ha
    subst he
    exact ⟨le_refl a, Nat.lt_succ_self a⟩
  | hfile l d r m =>
    intro n
    refine ⟨Nat.lt_succ_self n, ?_⟩
    intro a ha
    have he : a = n := by simpa [allocField, addrsInst] using ha
    subst he
    exact ⟨le_refl a, Nat.lt_succ_self a⟩
  | hobj l d r subs ih =>
    intro n
    have hsubs := allocSubs_range subs (fun p hp => ih p hp) (n + 1)
    constructor
    · show n < (allocSubs subs (n + 1)).2
      exact lt_of_lt_of_le (Nat.lt_succ_self n) hsubs.1
    · intro a ha
      have ha' : a ∈ n :: addrsSubs (allocSubs subs (n + 1)).1 := ha
      rcases List.mem_cons.mp ha' with rfl | hm
      · exact ⟨le_refl a,
          lt_of_lt_of_le (Nat.lt_succ_self a) hsubs.1⟩
      · have hr := hsubs.2 a hm
        exact ⟨le_trans (Nat.le_succ n) hr.1, hr.2⟩

/-- Loading a sub-field list writes only inside its owned cells. -/
theorem heapLoadSubs_frame (subs : List (String × Inst))
    (H : ∀ p ∈ subs, ∀ (x : JsonValue) (h : Heap) (a : Nat),
      a ∉ addrsInst p.2 → heapLoad p.2 x h a = h a) :
    ∀ (kvs : List (String × JsonValue)) (h : Heap) (a : Nat),
      a ∉ addrsSubs subs → heapLoadSubs subs kvs h a = h a := by
  induction subs with
  | nil => intro kvs h a _; rfl
  | cons p rest ih =>
    obtain ⟨nm, i⟩ := p
    intro kvs h a ha
    have hsplit : a ∉ addrsInst i ∧ a ∉ addrsSubs rest := by
      constructor <;> intro hmem <;> exact ha (by simp [addrsSubs, hmem])
    show heapLoadSubs rest kvs (heapLoad i (objGet kvs nm) h) a = h a
    rw [ih (fun q hq => H q (List.Mem.tail _ hq)) _ _ _ hsplit.2,
      H (nm, i) (List.Mem.head _) _ _ _ hsplit.1]

/-- load_data writes only the cells owned by the instance it is called
on: every other cell of the heap is untouched. -/
theorem heapLoad_frame : ∀ (i : Inst) (x : JsonValue) (h : Heap) (a : Nat),
    a ∉ addrsInst i → heapLoad i x h a = h a := by
  intro i
  induction i using instInduction with
  | hprim spec ad =>
    intro x h a ha
    have hne : a ≠ ad := fun e => ha (by simp [addrsInst, e])
    simp [heapLoad, hupdate, hne]
  | hnode ad subs ih =>
    intro x h a ha
    have hne : a ≠ ad := fun e => ha (by simp [addrsInst, e])
    have hnors : a ∉ addrsSubs subs := fun hmem =>
      ha (by simp [addrsInst, hmem])
    cases x with
    | null => simp [heapLoad, hupdate, hne]
    | obj kvs =>
      show hupdate (heapLoadSubs subs kvs h) ad
        (.obj (subs.map (fun p => (p.1, heapLoadSubs subs kvs h (rootAddr p.2)))))
        a = h a
      rw [hupdate]
      simp only [hne, if_false]
      exact heapLoadSubs_frame subs (fun p hp => ih p hp) kvs h a hnors
    | bool b => simp [heapLoad, hupdate, hne]
    | num n => simp [heapLoad, hupdate, hne]
    | str s => simp [heapLoad, hupdate, hne]
    | arr items => simp [heapLoad, hupdate, hne]

/-- C9: two ObjectField instances built from the same declaration by
sequential construction own disjoint heap cells, so loading either one
leaves the other instance's data and all of its sub-fields' data
unchanged. -/
theorem objectField_instances_isolated (l d : JsonValue) (r : Bool)
    (subs : List (String × FieldSpec)) (n0 : Nat) (h0 : Heap)
    (x y : JsonValue) :
    (∀ a ∈ addrsInst (allocField (.object l d r subs) n0).1,
      heapLoad (allocField (.object l d r subs)
          (allocField (.object l d r subs) n0).2).1 y
        (heapLoad (allocField (.object l d r subs) n0).1 x h0) a =
      heapLoad (allocField (.object l d r subs) n0).1 x h0 a) ∧
    (∀ a ∈ addrsInst (allocField (.object l d r subs)
        (allocField (.object l d r subs) n0).2).1,
      heapLoad (allocField (.object l d r subs) n0).1 x h0 a = h0 a) := by
  have hA := allocField_range (.object l d r subs) n0
  have hB := allocField_range (.object l d r subs)
    (allocField (.object l d r subs) n0).2
  constructor
  · intro a ha
    have haA := hA.2 a ha
    have hnotB : a ∉ addrsInst (allocField (.object l d r subs)
        (allocField (.object l d r subs) n0).2).1 := by
      intro hmem
      have hr := hB.2 a hmem
      omega
    exact heapLoad_frame _ y _ a hnotB
  · intro a ha
    have haB := hB.2 a ha
    have hnotA : a ∉ addrsInst (allocField (.object l d r subs) n0).1 := by
      intro hmem
      have hr := hA.2 a hmem
      omega
    exact heapLoad_frame _ x _ a hnotA

/-- C9 witness: a one-sub-field declaration, two instances allocated at
0, the sub-field cell of the first instance unchanged by the second
instance's load. -/
theorem objectField_instances_isolated_witness :
    1 ∈ addrsInst (allocField
      (.object .null .null false
        [("name", mkChar .null .null false none none none)]) 0).1 ∧
    heapLoad (allocField
        (.object .null .null false
          [("name", mkChar .null .null false none none none)])
        (allocField (.object .null .null false
          [("name", mkChar .null .null false none none none)]) 0).2).1
      (.obj [("name", .str "B")])
      (heapLoad (allocField (.object .null .null false
          [("name", mkChar .null .null false none none none)]) 0).1
        (.obj [("name", .str "A")]) (fun _ => .null)) 1 =
    heapLoad (allocField (.object .null .null false
        [("name", mkChar .null .null false none none none)]) 0).1
      (.obj [("name", .str "A")]) (fun _ => .null) 1 :=
  ⟨by decide,
   (objectField_instances_isolated .null .null false
      [("name", mkChar .null .null false none none none)] 0
      (fun _ => .null) (.obj [("name", .str "A")])
      (.obj [("name", .str "B")])).1 1 (by decide)⟩
